import Mathlib

/-!
# Verification of the rhr multi-tenant HR backend core

Shallow embedding of the tenant-resolution middleware, the tenant-scoped
repository, and the leave-request workflow / balance ledger of the rhr
Django backend (`backend/apps/tenants`, `backend/apps/core`,
`backend/apps/employees`, `backend/apps/leave`).

Conventions of the embedding:
* Django model rows become Lean structures; a database table becomes a
  `List` of rows in the order the default queryset ordering would return
  them, so `QuerySet.first()` becomes `List.head?` / `List.find?`.
* Calendar dates become `Date` records carrying the day ordinal (days
  since an arbitrary epoch, so Python's `(end - start).days` is ordinal
  subtraction) together with the calendar year of the date (used only as
  the balance-row key, mirroring `start_date.year`).
* `DecimalField` day quantities become `ℚ` (every value produced by the
  code is an integer or an integer plus one half, so `ℚ` is exact).
* Each HTTP action of a viewset becomes a function from the database and
  a request context to a response paired with the database after all of
  the action's writes; an error response leaves the database unchanged
  exactly when the Python code performs no write on that path.
-/

namespace Rhr

/-- A calendar date: `ord` is the day number since a fixed epoch (so that
`(d₂.ord - d₁.ord)` equals Python's `(d₂ - d₁).days`), and `year` is the
calendar year containing the date (Python's `d.year`). -/
structure Date where
  ord : Int
  year : Int
deriving DecidableEq, Repr

/-- `tenants.models.Tenant`: only the fields the resolver and the scoped
queries read (`pk`, `slug`, `is_active`). -/
structure Tenant where
  id : Nat
  slug : String
  is_active : Bool
deriving DecidableEq, Repr

/-- `tenants.models.TenantMembership`: links a user to a tenant with a
role string and the `is_default` flag. -/
structure Membership where
  pk : Nat
  user : Nat
  tenant : Nat
  role : String
  is_default : Bool
deriving DecidableEq, Repr

/-- `employees.models.Department`, reduced to the one attribute the leave
day-counting reads. Modelled from the spec: the `country` column of
`Department` (an ISO country code, blank = unset) is referenced by
`LeaveRequest.get_applicable_holidays` and the employee serializers but
its field declaration is not among the provided source files; the spec
describes it as the department's optional country driving holiday
matching. -/
structure Department where
  country : String
deriving DecidableEq, Repr

/-- `employees.models.Employee`: the fields read by the leave workflow
(`pk`, `tenant`, the linked `user`, `status`, and the department whose
country drives holiday matching). -/
structure Employee where
  id : Nat
  tenant : Nat
  user : Option Nat
  status : String
  department : Option Department
deriving DecidableEq, Repr

/-- The `status` choices of `leave.models.LeaveRequest`. -/
inductive LeaveStatus where
  | pending
  | approved
  | rejected
  | cancelled
deriving DecidableEq, Repr

/-- `leave.models.Holiday`: the fields read by the day-counting query
(`tenant`, `date`, `country`; blank country = company-wide). -/
structure Holiday where
  tenant : Nat
  date : Date
  country : String
deriving DecidableEq, Repr

/-- `leave.models.LeaveRequest`, with the employee foreign key
dereferenced into the row (the code always accesses it through
`self.employee`). -/
structure LeaveRequest where
  id : Nat
  tenant : Nat
  employee : Employee
  leave_type : Nat
  start_date : Date
  end_date : Date
  is_half_day : Bool
  status : LeaveStatus
  reviewed_by : Option Nat
  reviewed_at : Option Nat
  review_notes : String
deriving DecidableEq, Repr

/-- `leave.models.LeaveBalance`: one row per
(tenant, employee, leave_type, year). -/
structure LeaveBalance where
  tenant : Nat
  employee : Nat
  leave_type : Nat
  year : Int
  entitled_days : ℚ
  used_days : ℚ
  carried_over : ℚ
deriving DecidableEq, Repr

/-- `LeaveBalance.remaining_days`:
`self.entitled_days + self.carried_over - self.used_days`. -/
def LeaveBalance.remaining_days (b : LeaveBalance) : ℚ :=
  b.entitled_days + b.carried_over - b.used_days

/-! ## Tenant-scoped repository (core/models.py, employees/views.py) -/

section ScopedRepository

variable {α : Type} (tenantOf pkOf : α → Nat)

/-- `TenantAwareQuerySet.for_tenant`: `self.filter(tenant=tenant)`. -/
def for_tenant (rows : List α) (t : Nat) : List α :=
  rows.filter (fun r => tenantOf r == t)

/-- `TenantAwareViewSet.get_queryset`: the full queryset filtered by
`request.tenant` when one is attached, `queryset.none()` otherwise. -/
def tenantScopedQueryset (rows : List α) (ctxTenant : Option Nat) : List α :=
  match ctxTenant with
  | some t => for_tenant tenantOf rows t
  | none => []

/-- Outcome of a detail-route lookup (`self.get_object()`): either the row,
or the Http404 raised by `get_object_or_404`. -/
inductive LookupResult (β : Type) where
  | found (row : β)
  | notFound
deriving DecidableEq, Repr

/-- DRF `get_object` on a `TenantAwareViewSet`: look the primary key up
inside the tenant-scoped queryset; a miss raises Http404 (`notFound`). -/
def getObjectByPk (rows : List α) (ctxTenant : Option Nat) (pk : Nat) :
    LookupResult α :=
  match (tenantScopedQueryset tenantOf rows ctxTenant).find? (fun r => pkOf r == pk) with
  | some r => .found r
  | none => .notFound

end ScopedRepository

/-! ## Tenant resolver (tenants/middleware.py) -/

/-- The memberships of one user, in the queryset's default ordering
(`TenantMembership.Meta.ordering`); list order models that ordering, so
`first()` is `head?`/`find?`. -/
def userMemberships (ms : List Membership) (user : Nat) : List Membership :=
  ms.filter (fun m => m.user == user)

/-- Decimal digit value of a character, used by the embedded integer
parser. -/
def digitVal (c : Char) : Option Nat :=
  if '0' ≤ c ∧ c ≤ '9' then some (c.toNat - 48) else none

/-- Accumulating core of the embedded decimal parser. -/
def parseNatCore : List Char → Nat → Option Nat
  | [], acc => some acc
  | c :: cs, acc =>
    match digitVal c with
    | some d => parseNatCore cs (acc * 10 + d)
    | none => none

/-- The integer coercion Django applies to a string primary-key value:
a non-empty all-digit string parses, anything else raises the
`ValueError` the middleware catches. -/
def parseNat (s : String) : Option Nat :=
  match s.data with
  | [] => none
  | cs => parseNatCore cs 0

/-- Python's `str.split(sep)` for a single-character separator, on the
character list of the string. -/
def splitOnChar (sep : Char) (cs : List Char) : List (List Char) :=
  cs.foldr (fun c acc =>
    match acc with
    | [] => [[c]]
    | g :: gs => if c = sep then [] :: g :: gs else (c :: g) :: gs) [[]]

/-- Step 1 of `TenantMiddleware._resolve_tenant`: the `X-Tenant-ID` header.
An absent or empty header is falsy; a non-numeric value raises the
`ValueError` the code catches; `Tenant.objects.get(pk=…, is_active=True)`
misses (caught `DoesNotExist`) unless an active tenant has that pk. -/
def resolveFromHeader (tenants : List Tenant) (header : Option String) : Option Tenant :=
  match header with
  | none => none
  | some s =>
    if s = "" then none
    else
      match parseNat s with
      | some n => tenants.find? (fun t => t.id == n && t.is_active)
      | none => none

/-- `request.get_host().split(":")[0]` — strip the port. -/
def hostWithoutPort (host : String) : List Char :=
  (splitOnChar ':' host.data).headD []

/-- `host.split(".")` after stripping the port. -/
def hostLabels (host : String) : List String :=
  (splitOnChar '.' (hostWithoutPort host)).map (fun cs => String.mk cs)

/-- Step 2 of `TenantMiddleware._resolve_tenant`: the subdomain. Only
hosts with more than two dot-separated labels are considered; the
leftmost label is looked up by slug among active tenants. -/
def resolveFromSubdomain (tenants : List Tenant) (host : String) : Option Tenant :=
  let parts := hostLabels host
  if parts.length > 2 then
    tenants.find? (fun t => t.slug == parts.headD "" && t.is_active)
  else none

/-- `TenantMiddleware._resolve_tenant`: header first, then subdomain. -/
def resolveHeaderOrSubdomain (tenants : List Tenant) (header : Option String)
    (host : String) : Option Tenant :=
  match resolveFromHeader tenants header with
  | some t => some t
  | none => resolveFromSubdomain tenants host

/-- `TenantMiddleware._get_user_default_tenant`: the tenant of the
membership flagged `is_default` (no activity check on that tenant), else
the tenant of the first membership whose tenant is active. `m.tenant` is
the foreign-key dereference. -/
def getUserDefaultTenant (tenants : List Tenant) (ms : List Membership)
    (user : Nat) : Option Tenant :=
  let mine := userMemberships ms user
  match mine.find? (fun m => m.is_default) with
  | some m => tenants.find? (fun t => t.id == m.tenant)
  | none =>
    match mine.find? (fun m =>
        (tenants.find? (fun t => t.id == m.tenant && t.is_active)).isSome) with
    | some m => tenants.find? (fun t => t.id == m.tenant)
    | none => none

/-- The resolution performed by `TenantMiddleware.__call__` on an API
request that is not path-exempt: header/subdomain first, then — only if
nothing resolved and the request carries an authenticated user — the
user's default tenant. Never raises; `none` is a valid outcome. -/
def resolveRequestTenant (tenants : List Tenant) (ms : List Membership)
    (header : Option String) (host : String) (authenticated : Bool)
    (user : Nat) : Option Tenant :=
  match resolveHeaderOrSubdomain tenants header host with
  | some t => some t
  | none =>
    if authenticated then getUserDefaultTenant tenants ms user else none

/-- Written from the words of the spec's resolution contract (claim C2):
first match wins among (1) explicit header looked up by primary key,
active only, malformed or inactive falling through; (2) leftmost host
label when the host has more than two dot-separated segments, looked up
by slug, active only; (3) for an authenticated identity, the default
membership's tenant, or, if none is marked default, the first membership
whose tenant is active. -/
def resolveTenantSpec (tenants : List Tenant) (ms : List Membership)
    (header : Option String) (host : String) (authenticated : Bool)
    (user : Nat) : Option Tenant :=
  let step1 : Option Tenant :=
    match header with
    | some s =>
      if s ≠ "" then
        match parseNat s with
        | some n => tenants.find? (fun t => t.id == n && t.is_active)
        | none => none
      else none
    | none => none
  match step1 with
  | some t => some t
  | none =>
    let labels := hostLabels host
    let step2 : Option Tenant :=
      if labels.length > 2 then
        tenants.find? (fun t => t.slug == labels.headD "" && t.is_active)
      else none
    match step2 with
    | some t => some t
    | none =>
      if authenticated then
        let mine := (ms.filter (fun m => m.user == user))
        match mine.find? (fun m => m.is_default) with
        | some m => tenants.find? (fun t => t.id == m.tenant)
        | none =>
          match mine.find? (fun m =>
              (tenants.find? (fun t => t.id == m.tenant && t.is_active)).isSome) with
          | some m => tenants.find? (fun t => t.id == m.tenant)
          | none => none
      else none

/-! ## Holiday-aware day counting (leave/models.py) -/

/-- The employee's department country as read by
`LeaveRequest.get_applicable_holidays`: present only when the employee
has a department *and* that department's country is non-blank (the
Python truthiness test `if self.employee.department and
self.employee.department.country`). -/
def employeeCountry (e : Employee) : Option String :=
  match e.department with
  | some d => if d.country ≠ "" then some d.country else none
  | none => none

/-- The country clause of the holiday query: with an employee country,
holidays matching that country or blank (company-wide); otherwise only
blank-country holidays. -/
def holidayCountryMatches (ec : Option String) (h : Holiday) : Bool :=
  match ec with
  | some c => h.country == c || h.country == ""
  | none => h.country == ""

/-- `LeaveRequest.get_applicable_holidays`: this tenant's holidays dated
within `[start_date, end_date]`, filtered by the country clause. -/
def getApplicableHolidays (lr : LeaveRequest) (holidays : List Holiday) :
    List Holiday :=
  holidays.filter (fun h =>
    h.tenant == lr.tenant
      && decide (lr.start_date.ord ≤ h.date.ord)
      && decide (h.date.ord ≤ lr.end_date.ord)
      && holidayCountryMatches (employeeCountry lr.employee) h)

/-- `LeaveRequest.total_calendar_days`: 0.5 for a half day, otherwise the
inclusive span `(end_date - start_date).days + 1`. -/
def LeaveRequest.total_calendar_days (lr : LeaveRequest) : ℚ :=
  if lr.is_half_day then 1 / 2
  else ((lr.end_date.ord - lr.start_date.ord + 1 : ℤ) : ℚ)

/-- `LeaveRequest.days_requested`: for a half day, 0 when the start date
is among the applicable holidays, 0.5 otherwise; for a full span,
`max(0, total_calendar_days - holidays_excluded_count)`. -/
def LeaveRequest.days_requested (lr : LeaveRequest) (holidays : List Holiday) : ℚ :=
  if lr.is_half_day then
    if (getApplicableHolidays lr holidays).any (fun h => h.date.ord == lr.start_date.ord)
    then 0
    else 1 / 2
  else
    ((max 0 ((lr.end_date.ord - lr.start_date.ord + 1)
      - ((getApplicableHolidays lr holidays).length : ℤ)) : ℤ) : ℚ)

/-- The country clause as the spec's sentence words it (claim C3):
country empty, or equal to the employee's department's country; only
company-wide holidays when the employee has no department country. -/
def holidayAppliesSpec (lr : LeaveRequest) (h : Holiday) : Bool :=
  h.tenant == lr.tenant
    && (match employeeCountry lr.employee with
        | some c => h.country == "" || h.country == c
        | none => h.country == "")

/-- The reference day-count definition, written from the spec's words
(claim C3): a half day is 0 when its single date matches an applicable
holiday and 0.5 otherwise; a full span is
`max(0, (end - start).days + 1 - count of matching holidays in range)`. -/
def daysRequestedSpec (lr : LeaveRequest) (holidays : List Holiday) : ℚ :=
  if lr.is_half_day then
    if holidays.any (fun h => holidayAppliesSpec lr h && h.date.ord == lr.start_date.ord)
    then 0
    else 1 / 2
  else
    let span : ℤ := lr.end_date.ord - lr.start_date.ord + 1
    let cnt : ℤ := (holidays.filter (fun h =>
      holidayAppliesSpec lr h
        && decide (lr.start_date.ord ≤ h.date.ord)
        && decide (h.date.ord ≤ lr.end_date.ord))).length
    ((max 0 (span - cnt) : ℤ) : ℚ)

/-- The half-day clause of `LeaveRequestSerializer.validate` /
`LeaveRequestCreateSerializer.validate`: a half-day request whose start
and end dates differ is rejected at creation. -/
def halfDayValidationPasses (lr : LeaveRequest) : Bool :=
  if lr.is_half_day then lr.start_date == lr.end_date else true

/-! ## Leave workflow state and actions (leave/views.py) -/

/-- The database tables the leave workflow touches, each in default
queryset order. -/
structure Db where
  tenants : List Tenant
  memberships : List Membership
  employees : List Employee
  requests : List LeaveRequest
  balances : List LeaveBalance
  holidays : List Holiday
deriving DecidableEq, Repr

/-- The request context a viewset action sees: the authenticated user id,
whether authentication succeeded, the tenant attached by
`TenantMiddleware` (`request.tenant`), and the clock value
`timezone.now()` would return. -/
structure Ctx where
  userId : Nat
  isAuthenticated : Bool
  tenant : Option Nat
  now : Nat
deriving DecidableEq, Repr

/-- `LeaveRequestViewSet._get_current_employee`: `None` without an
authenticated user and a tenant; otherwise the first active employee row
of this tenant linked to this user. -/
def getCurrentEmployee (employees : List Employee) (ctx : Ctx) : Option Employee :=
  if !ctx.isAuthenticated then none
  else
    match ctx.tenant with
    | none => none
    | some t =>
      employees.find? (fun e =>
        e.tenant == t && e.user == some ctx.userId && e.status == "active")

/-- `LeaveRequestViewSet._has_approval_permission`: the caller's first
membership in the current tenant exists and its role is owner, admin or
manager. -/
def hasApprovalPermission (ms : List Membership) (ctx : Ctx) : Bool :=
  match ms.find? (fun m => m.user == ctx.userId && some m.tenant == ctx.tenant) with
  | some m => m.role == "owner" || m.role == "admin" || m.role == "manager"
  | none => false

/-- `LeaveRequestViewSet.get_queryset` (without the optional date-range
query parameters): the tenant's requests, or an empty queryset without a
tenant context. -/
def leaveRequestQueryset (requests : List LeaveRequest) (ctxTenant : Option Nat) :
    List LeaveRequest :=
  match ctxTenant with
  | some t => requests.filter (fun r => r.tenant == t)
  | none => []

/-- `self.get_object()` on the leave-request viewset. -/
def getLeaveRequest (requests : List LeaveRequest) (ctxTenant : Option Nat)
    (pk : Nat) : Option LeaveRequest :=
  (leaveRequestQueryset requests ctxTenant).find? (fun r => r.id == pk)

/-- Replace the first element satisfying `p` by its image under `f`
(a row UPDATE keyed by a unique column). -/
def replaceFirst {α : Type} (p : α → Bool) (f : α → α) : List α → List α
  | [] => []
  | a :: as => if p a then f a :: as else a :: replaceFirst p f as

/-- `leave_request.save()`: update the row with this primary key. -/
def saveLeaveRequest (requests : List LeaveRequest) (lr : LeaveRequest) :
    List LeaveRequest :=
  replaceFirst (fun r => r.id == lr.id) (fun _ => lr) requests

/-- The `get_or_create` key used by
`LeaveRequestViewSet._update_leave_balance`:
(tenant, employee, leave_type, start_date.year). -/
def balanceMatches (lr : LeaveRequest) (b : LeaveBalance) : Bool :=
  b.tenant == lr.tenant && b.employee == lr.employee.id
    && b.leave_type == lr.leave_type && b.year == lr.start_date.year

/-- The row `get_or_create` inserts when no balance exists:
`defaults={"entitled_days": Decimal("0")}`, with `used_days` and
`carried_over` at their model defaults of 0. -/
def newBalanceFor (lr : LeaveRequest) : LeaveBalance :=
  { tenant := lr.tenant
    employee := lr.employee.id
    leave_type := lr.leave_type
    year := lr.start_date.year
    entitled_days := 0
    used_days := 0
    carried_over := 0 }

/-- The signed adjustment applied to `used_days`: `+= days` on approval,
`-= days` on cancellation of an approved request; no floor or ceiling. -/
def adjustUsed (add : Bool) (d : ℚ) (b : LeaveBalance) : LeaveBalance :=
  if add then { b with used_days := b.used_days + d }
  else { b with used_days := b.used_days - d }

/-- `LeaveRequestViewSet._update_leave_balance`: get-or-create the
balance row keyed by the request's start-year, then apply the signed
`days_requested` delta to `used_days` and save. `days_requested` is
recomputed here from the holiday rows present at call time. -/
def updateLeaveBalance (holidays : List Holiday) (balances : List LeaveBalance)
    (lr : LeaveRequest) (add : Bool) : List LeaveBalance :=
  let d := lr.days_requested holidays
  if balances.any (balanceMatches lr) then
    replaceFirst (balanceMatches lr) (adjustUsed add d) balances
  else
    balances ++ [adjustUsed add d (newBalanceFor lr)]

/-- The responses a leave-request workflow action can produce. -/
inductive ApiResult where
  | ok (lr : LeaveRequest)
  | forbidden (detail : String)
  | notFound (detail : String)
  | badRequest (detail : String)
deriving DecidableEq, Repr

/-- `LeaveRequestViewSet.approve`: permission gate, object lookup,
reviewer lookup, pending-status gate; then set
status/reviewer/timestamp/notes, save the request, and update the
balance. Each error path leaves the database untouched. -/
def approve (db : Db) (ctx : Ctx) (pk : Nat) (notes : String) : ApiResult × Db :=
  if !hasApprovalPermission db.memberships ctx then
    (.forbidden "Only managers can approve leave requests", db)
  else
    match getLeaveRequest db.requests ctx.tenant pk with
    | none => (.notFound "No LeaveRequest matches the given query.", db)
    | some lr =>
      match getCurrentEmployee db.employees ctx with
      | none => (.notFound "No employee profile found", db)
      | some reviewer =>
        if lr.status != .pending then
          (.badRequest "Only pending requests can be approved", db)
        else
          let lr' : LeaveRequest :=
            { lr with
              status := .approved
              reviewed_by := some reviewer.id
              reviewed_at := some ctx.now
              review_notes := notes }
          let requests' := saveLeaveRequest db.requests lr'
          let balances' := updateLeaveBalance db.holidays db.balances lr' true
          (.ok lr', { db with requests := requests', balances := balances' })

/-- The database as committed after the *first* write of a successful
`approve` (`leave_request.save()`), before `_update_leave_balance` runs.
The two writes are separate autocommitted statements: `leave/views.py`
uses no `transaction.atomic` and no settings module enables
`ATOMIC_REQUESTS`, so this intermediate state is durable if the second
write fails. `none` when `approve` would not reach the first write. -/
def approveIntermediateDb (db : Db) (ctx : Ctx) (pk : Nat) (notes : String) :
    Option Db :=
  if !hasApprovalPermission db.memberships ctx then none
  else
    match getLeaveRequest db.requests ctx.tenant pk with
    | none => none
    | some lr =>
      match getCurrentEmployee db.employees ctx with
      | none => none
      | some reviewer =>
        if lr.status != .pending then none
        else
          let lr' : LeaveRequest :=
            { lr with
              status := .approved
              reviewed_by := some reviewer.id
              reviewed_at := some ctx.now
              review_notes := notes }
          some { db with requests := saveLeaveRequest db.requests lr' }

/-- `LeaveRequestViewSet.reject`: same gates as approve; records
reviewer/timestamp/notes, no balance effect. -/
def reject (db : Db) (ctx : Ctx) (pk : Nat) (notes : String) : ApiResult × Db :=
  if !hasApprovalPermission db.memberships ctx then
    (.forbidden "Only managers can reject leave requests", db)
  else
    match getLeaveRequest db.requests ctx.tenant pk with
    | none => (.notFound "No LeaveRequest matches the given query.", db)
    | some lr =>
      match getCurrentEmployee db.employees ctx with
      | none => (.notFound "No employee profile found", db)
      | some reviewer =>
        if lr.status != .pending then
          (.badRequest "Only pending requests can be rejected", db)
        else
          let lr' : LeaveRequest :=
            { lr with
              status := .rejected
              reviewed_by := some reviewer.id
              reviewed_at := some ctx.now
              review_notes := notes }
          (.ok lr', { db with requests := saveLeaveRequest db.requests lr' })

/-- `LeaveRequestViewSet.cancel`: object lookup, caller's employee
profile, ownership gate, status gate (`pending` or `approved` only); a
cancelled approval first reverses the balance, then the status flips to
cancelled. -/
def cancel (db : Db) (ctx : Ctx) (pk : Nat) : ApiResult × Db :=
  match getLeaveRequest db.requests ctx.tenant pk with
  | none => (.notFound "No LeaveRequest matches the given query.", db)
  | some lr =>
    match getCurrentEmployee db.employees ctx with
    | none => (.notFound "No employee profile found", db)
    | some employee =>
      if lr.employee.id != employee.id then
        (.forbidden "You can only cancel your own requests", db)
      else if !(lr.status == .pending || lr.status == .approved) then
        (.badRequest "This request cannot be cancelled", db)
      else
        let balances' :=
          if lr.status == .approved then
            updateLeaveBalance db.holidays db.balances lr false
          else db.balances
        let lr' : LeaveRequest := { lr with status := .cancelled }
        (.ok lr',
          { db with
            requests := saveLeaveRequest db.requests lr'
            balances := balances' })

/-- Responses of the `pending_approval` list action. -/
inductive ListResult where
  | ok (items : List LeaveRequest)
  | forbidden (detail : String)
deriving DecidableEq, Repr

/-- `LeaveRequestViewSet.pending_approval`: refused outright without the
approval role; otherwise the tenant's pending requests. -/
def pendingApproval (db : Db) (ctx : Ctx) : ListResult :=
  if !hasApprovalPermission db.memberships ctx then
    .forbidden "Only managers can view pending approvals"
  else
    .ok ((leaveRequestQueryset db.requests ctx.tenant).filter
      (fun r => r.status == .pending))

/-! ## Membership default-flag maintenance (tenants/models.py) -/

/-- The UPDATE issued by `TenantMembership.save` when `is_default` is
set: clear `is_default` on every membership of this user other than the
row being saved. -/
def clearOtherDefaults (ms : List Membership) (m : Membership) : List Membership :=
  ms.map (fun x =>
    if x.user == m.user && x.is_default && x.pk != m.pk then
      { x with is_default := false }
    else x)

/-- `TenantMembership.save`: clear the user's other defaults first (only
when this row is default), then write the row itself — an UPDATE when
the primary key already exists, an INSERT otherwise. -/
def membershipSave (ms : List Membership) (m : Membership) : List Membership :=
  let ms1 := if m.is_default then clearOtherDefaults ms m else ms
  if ms1.any (fun x => x.pk == m.pk) then
    replaceFirst (fun x => x.pk == m.pk) (fun _ => m) ms1
  else ms1 ++ [m]

/-- The invariant of claim C8: no user has two distinct default
memberships (distinct rows carry distinct primary keys). -/
def AtMostOneDefault (ms : List Membership) : Prop :=
  ∀ x ∈ ms, ∀ y ∈ ms,
    x.user = y.user → x.is_default = true → y.is_default = true → x.pk = y.pk

/-! ## Concrete fixtures used by witnesses and counterexamples -/

/-- An employee of tenant 1 with no linked user, used by the isolation
witness. -/
def fixEmployeeT1 : Employee :=
  { id := 5, tenant := 1, user := none, status := "active", department := none }

/-- The inactive tenant of the resolution counterexample (spec example:
tenant 7, slug "acme", deactivated). -/
def fixInactiveTenant : Tenant :=
  { id := 7, slug := "acme", is_active := false }

/-- A membership marking the inactive tenant 7 as user 1's default. -/
def fixDefaultMembership : Membership :=
  { pk := 1, user := 1, tenant := 7, role := "employee", is_default := true }

/-- The manager who approves in the workflow fixtures (user 10,
employee 1 of tenant 1). -/
def fixManagerEmployee : Employee :=
  { id := 1, tenant := 1, user := some 10, status := "active", department := none }

/-- The employee who owns the fixture leave request (user 20,
employee 2 of tenant 1). -/
def fixOwnerEmployee : Employee :=
  { id := 2, tenant := 1, user := some 20, status := "active", department := none }

/-- The manager's membership in tenant 1. -/
def fixManagerMembership : Membership :=
  { pk := 3, user := 10, tenant := 1, role := "manager", is_default := false }

/-- A pending five-calendar-day request (2024-07-01 .. 2024-07-05 of the
spec example; ordinals 100..104 of year 2024). -/
def fixPendingRequest : LeaveRequest :=
  { id := 5, tenant := 1, employee := fixOwnerEmployee, leave_type := 3
    start_date := { ord := 100, year := 2024 }
    end_date := { ord := 104, year := 2024 }
    is_half_day := false, status := .pending
    reviewed_by := none, reviewed_at := none, review_notes := "" }

/-- The balance row for the fixture request's key, entitled 20, used 0. -/
def fixBalance : LeaveBalance :=
  { tenant := 1, employee := 2, leave_type := 3, year := 2024
    entitled_days := 20, used_days := 0, carried_over := 0 }

/-- The workflow fixture database. -/
def fixDb : Db :=
  { tenants := [{ id := 1, slug := "acme", is_active := true }]
    memberships := [fixManagerMembership]
    employees := [fixManagerEmployee, fixOwnerEmployee]
    requests := [fixPendingRequest]
    balances := [fixBalance]
    holidays := [] }

/-- The manager's request context on tenant 1. -/
def fixCtxManager : Ctx :=
  { userId := 10, isAuthenticated := true, tenant := some 1, now := 999 }

/-- The request owner's context on tenant 1. -/
def fixCtxOwner : Ctx :=
  { userId := 20, isAuthenticated := true, tenant := some 1, now := 999 }

/-- A viewer's context on tenant 1 (no approval role). -/
def fixCtxViewer : Ctx :=
  { userId := 30, isAuthenticated := true, tenant := some 1, now := 999 }

/-- A half-day request on the single date at ordinal 100. -/
def fixHalfDayRequest : LeaveRequest :=
  { fixPendingRequest with
    is_half_day := true
    end_date := { ord := 100, year := 2024 } }

/-- A company-wide holiday of tenant 1 on the half-day request's date. -/
def fixHoliday : Holiday :=
  { tenant := 1, date := { ord := 100, year := 2024 }, country := "" }

/-- A second membership of user 1 being saved with `is_default = true`
(spec example: flipping the default to another tenant). -/
def fixSecondDefault : Membership :=
  { pk := 2, user := 1, tenant := 8, role := "employee", is_default := true }

/-- A balance with only 2 entitled days, used to exhibit a negative
remaining balance after an approval of 5 days. -/
def fixSmallBalance : LeaveBalance :=
  { tenant := 1, employee := 2, leave_type := 3, year := 2024
    entitled_days := 2, used_days := 0, carried_over := 0 }

/-- The fixture request exactly as `approve` under the manager's context
saves it in its first write. -/
def fixApprovedSaved : LeaveRequest :=
  { fixPendingRequest with
    status := .approved
    reviewed_by := some 1
    reviewed_at := some 999
    review_notes := "" }

/-! ## General list lemmas -/

theorem find?_replaceFirst {α : Type} (p : α → Bool) (f : α → α)
    (hf : ∀ a, p a = true → p (f a) = true) (l : List α) :
    (replaceFirst p f l).find? p = (l.find? p).map f := by
  induction l with
  | nil => rfl
  | cons a as ih =>
    by_cases h : p a = true
    · simp [replaceFirst, h, List.find?_cons_of_pos, hf a h]
    · rw [Bool.not_eq_true] at h
      simp [replaceFirst, h, List.find?_cons_of_neg, ih]

theorem any_replaceFirst {α : Type} (p : α → Bool) (f : α → α)
    (hf : ∀ a, p a = true → p (f a) = true) (l : List α) :
    (replaceFirst p f l).any p = l.any p := by
  induction l with
  | nil => rfl
  | cons a as ih =>
    by_cases h : p a = true
    · simp [replaceFirst, h, hf a h]
    · rw [Bool.not_eq_true] at h
      simp [replaceFirst, h, ih]

theorem replaceFirst_replaceFirst {α : Type} (p : α → Bool) (f g : α → α)
    (hg : ∀ a, p a = true → p (g a) = true) (l : List α) :
    replaceFirst p f (replaceFirst p g l) = replaceFirst p (fun a => f (g a)) l := by
  induction l with
  | nil => rfl
  | cons a as ih =>
    by_cases h : p a = true
    · simp [replaceFirst, h, hg a h]
    · rw [Bool.not_eq_true] at h
      simp [replaceFirst, h, ih]

theorem replaceFirst_id {α : Type} (p : α → Bool) (f : α → α)
    (hf : ∀ a, p a = true → f a = a) (l : List α) :
    replaceFirst p f l = l := by
  induction l with
  | nil => rfl
  | cons a as ih =>
    by_cases h : p a = true
    · simp [replaceFirst, h, hf a h]
    · rw [Bool.not_eq_true] at h
      simp [replaceFirst, h, ih]

theorem mem_replaceFirst {α : Type} (p : α → Bool) (f : α → α) (l : List α)
    (y : α) (hy : y ∈ replaceFirst p f l) :
    y ∈ l ∨ ∃ x ∈ l, p x = true ∧ y = f x := by
  induction l with
  | nil => simp [replaceFirst] at hy
  | cons a as ih =>
    by_cases h : p a = true
    · simp only [replaceFirst, h, if_true, List.mem_cons] at hy
      rcases hy with hy | hy
      · exact Or.inr ⟨a, by simp, h, hy⟩
      · exact Or.inl (List.mem_cons_of_mem a hy)
    · rw [Bool.not_eq_true] at h
      simp only [replaceFirst, h, Bool.false_eq_true, if_false, List.mem_cons] at hy
      rcases hy with hy | hy
      · exact Or.inl (by simp [hy])
      · rcases ih hy with h' | ⟨x, hx, hpx, hyx⟩
        · exact Or.inl (List.mem_cons_of_mem a h')
        · exact Or.inr ⟨x, List.mem_cons_of_mem a hx, hpx, hyx⟩

theorem list_any_congr {α : Type} (p q : α → Bool) (l : List α)
    (h : ∀ x ∈ l, p x = q x) : l.any p = l.any q := by
  induction l with
  | nil => rfl
  | cons a as ih =>
    simp only [List.any_cons, h a (by simp),
      ih (fun x hx => h x (by simp [hx]))]

theorem holidayAppliesSpec_eq (lr : LeaveRequest) (h : Holiday) :
    holidayAppliesSpec lr h
      = (h.tenant == lr.tenant
          && holidayCountryMatches (employeeCountry lr.employee) h) := by
  unfold holidayAppliesSpec holidayCountryMatches
  cases employeeCountry lr.employee with
  | none => rfl
  | some c => simp [Bool.or_comm]

/-! ## Theorems for the claims -/

/-- C1: For tenants T1 ≠ T2 and a tenant-owned entity of T1, a
primary-key lookup under T2's context hits the tenant-scoped queryset
(`TenantAwareViewSet.get_queryset` composing
`TenantAwareQuerySet.for_tenant`) and returns NotFound, exactly as if
the row did not exist at all. -/
theorem tenant_isolation_pk_lookup {α : Type} (tenantOf pkOf : α → Nat)
    (rows : List α) (e : α) (t2 : Nat)
    (_hmem : e ∈ rows) (hneq : tenantOf e ≠ t2)
    (huniq : ∀ r ∈ rows, pkOf r = pkOf e → r = e) :
    getObjectByPk tenantOf pkOf rows (some t2) (pkOf e) = .notFound
      ∧ getObjectByPk tenantOf pkOf rows (some t2) (pkOf e)
        = getObjectByPk tenantOf pkOf
            (rows.filter (fun r => pkOf r != pkOf e)) (some t2) (pkOf e) := by
  have hnone :
      (List.filter (fun r => tenantOf r == t2) rows).find?
        (fun r => pkOf r == pkOf e) = none := by
    rw [List.find?_eq_none]
    intro x hx
    rcases List.mem_filter.mp hx with ⟨hxr, hxt⟩
    intro hpk
    rw [beq_iff_eq] at hpk hxt
    exact hneq ((huniq x hxr hpk ▸ hxt : tenantOf e = t2))
  have hnone' :
      (List.filter (fun r => tenantOf r == t2)
          (rows.filter (fun r => pkOf r != pkOf e))).find?
        (fun r => pkOf r == pkOf e) = none := by
    rw [List.find?_eq_none]
    intro x hx
    rcases List.mem_filter.mp hx with ⟨hxr, _⟩
    rcases List.mem_filter.mp hxr with ⟨_, hxne⟩
    intro hpk
    simp only [bne_iff_ne, ne_eq, beq_iff_eq] at hxne hpk
    exact hxne hpk
  have e1 : getObjectByPk tenantOf pkOf rows (some t2) (pkOf e) = .notFound := by
    unfold getObjectByPk tenantScopedQueryset for_tenant
    rw [hnone]
  have e2 : getObjectByPk tenantOf pkOf
      (rows.filter (fun r => pkOf r != pkOf e)) (some t2) (pkOf e) = .notFound := by
    unfold getObjectByPk tenantScopedQueryset for_tenant
    rw [hnone']
  exact ⟨e1, e1.trans e2.symm⟩

/-- Witness for C1 at a concrete database: employee 5 of tenant 1 looked
up under tenant 2's context is NotFound and indistinguishable from a
missing row. -/
theorem tenant_isolation_pk_lookup_witness :
    getObjectByPk Employee.tenant Employee.id [fixEmployeeT1] (some 2)
        (fixEmployeeT1.id) = .notFound
      ∧ getObjectByPk Employee.tenant Employee.id [fixEmployeeT1] (some 2)
          (fixEmployeeT1.id)
        = getObjectByPk Employee.tenant Employee.id
            ([fixEmployeeT1].filter (fun r => r.id != fixEmployeeT1.id)) (some 2)
            (fixEmployeeT1.id) :=
  tenant_isolation_pk_lookup Employee.tenant Employee.id [fixEmployeeT1]
    fixEmployeeT1 2 (by simp) (by decide) (by decide)

/-- C2 counterexample: with tenant 7 inactive (slug "acme"), header
`X-Tenant-ID: 7`, a two-label host, and an authenticated user whose
*default membership* is tenant 7, resolution falls through the header
and subdomain steps but the default-membership fallback returns the very
inactive tenant the header named — so "an inactive tenant named in the
header is never returned" is false of the code as an absolute statement
about the whole resolution. -/
theorem resolve_inactive_header_tenant_returned :
    resolveRequestTenant [fixInactiveTenant] [fixDefaultMembership]
        (some "7") "example.com" true 1 = some fixInactiveTenant
      ∧ fixInactiveTenant.is_active = false := by
  constructor
  · decide
  · rfl

/-- C2 (amended): tenant resolution follows the strict priority
(1) header by primary key, active only, malformed or inactive falling
through; (2) leftmost host label by slug when the host has more than two
labels, active only; (3) authenticated fallback to the default
membership's tenant, else the first membership whose tenant is active —
stated as equality with `resolveTenantSpec`, the resolver written from
the spec's words. The header and subdomain steps never produce an
inactive tenant (the default-membership fallback may, when the user's
default membership names an inactive tenant). Resolution is a total
function — it never raises — and `none` is a valid result. -/
theorem resolver_matches_spec :
    (∀ (tenants : List Tenant) (ms : List Membership) (header : Option String)
        (host : String) (authenticated : Bool) (user : Nat),
      resolveRequestTenant tenants ms header host authenticated user
        = resolveTenantSpec tenants ms header host authenticated user)
      ∧ (∀ (tenants : List Tenant) (header : Option String) (t : Tenant),
          resolveFromHeader tenants header = some t → t.is_active = true)
      ∧ (∀ (tenants : List Tenant) (host : String) (t : Tenant),
          resolveFromSubdomain tenants host = some t → t.is_active = true) := by
  refine ⟨?_, ?_, ?_⟩
  · intro tenants ms header host authenticated user
    cases header with
    | none => rfl
    | some s =>
      by_cases hs : s = ""
      · subst hs
        rfl
      · simp only [resolveRequestTenant, resolveTenantSpec,
          resolveHeaderOrSubdomain, resolveFromHeader, resolveFromSubdomain,
          getUserDefaultTenant, userMemberships, hs, ne_eq,
          not_false_eq_true, if_true, if_false, reduceIte]
        cases hn : parseNat s with
        | none => simp only [hn]
        | some n =>
          cases hf : tenants.find? (fun t => t.id == n && t.is_active) with
          | none => simp only [hn, hf]
          | some t => simp only [hn, hf]
  · intro tenants header t h
    cases header with
    | none => simp [resolveFromHeader] at h
    | some s =>
      simp only [resolveFromHeader] at h
      by_cases hs : s = ""
      · rw [if_pos hs] at h
        cases h
      · rw [if_neg hs] at h
        cases hn : parseNat s with
        | none => rw [hn] at h; cases h
        | some n =>
          rw [hn] at h
          have hx := List.find?_some h
          simp only [Bool.and_eq_true, beq_iff_eq] at hx
          exact hx.2
  · intro tenants host t h
    simp only [resolveFromSubdomain] at h
    by_cases hl : (hostLabels host).length > 2
    · rw [if_pos hl] at h
      have hx := List.find?_some h
      simp only [Bool.and_eq_true, beq_iff_eq] at hx
      exact hx.2
    · rw [if_neg hl] at h
      cases h

/-- Witness for C2: an active tenant 9 resolved from header "9" agrees
with the spec resolver, and the header/subdomain steps only ever return
active tenants, exercised at concrete inputs. -/
theorem resolver_matches_spec_witness :
    (resolveRequestTenant [{ id := 9, slug := "beta", is_active := true }] []
        (some "9") "beta.example.com" false 1
      = resolveTenantSpec [{ id := 9, slug := "beta", is_active := true }] []
        (some "9") "beta.example.com" false 1)
      ∧ Tenant.is_active { id := 9, slug := "beta", is_active := true } = true :=
  ⟨resolver_matches_spec.1 [{ id := 9, slug := "beta", is_active := true }] []
      (some "9") "beta.example.com" false 1,
    resolver_matches_spec.2.1 [{ id := 9, slug := "beta", is_active := true }]
      (some "9") { id := 9, slug := "beta", is_active := true } (by decide)⟩

/-- C3: under the creation-time validation fact that a half-day request
spans a single calendar date, `LeaveRequest.days_requested` equals the
reference definition written from the spec: a half day is 0 on an
applicable holiday and 0.5 otherwise; a full span is
`max(0, (end - start).days + 1 - matching holiday count)`. -/
theorem days_requested_matches_spec (lr : LeaveRequest) (holidays : List Holiday)
    (hhalf : lr.is_half_day = true → lr.start_date = lr.end_date) :
    lr.days_requested holidays = daysRequestedSpec lr holidays := by
  by_cases hd : lr.is_half_day = true
  · have hse := hhalf hd
    simp only [LeaveRequest.days_requested, daysRequestedSpec, hd, if_true,
      getApplicableHolidays, List.any_filter]
    have hany : holidays.any (fun h =>
        (h.tenant == lr.tenant
            && decide (lr.start_date.ord ≤ h.date.ord)
            && decide (h.date.ord ≤ lr.end_date.ord)
            && holidayCountryMatches (employeeCountry lr.employee) h)
          && (h.date.ord == lr.start_date.ord))
        = holidays.any (fun h =>
            holidayAppliesSpec lr h && (h.date.ord == lr.start_date.ord)) := by
      apply list_any_congr
      intro x _
      by_cases hq : x.date.ord = lr.start_date.ord
      · simp [holidayAppliesSpec_eq, hq, ← hse, Bool.and_assoc]
      · have hq' : (x.date.ord == lr.start_date.ord) = false :=
          beq_eq_false_iff_ne.mpr hq
        simp [hq']
    rw [hany]
  · have hd' : lr.is_half_day = false := by simpa using hd
    simp only [LeaveRequest.days_requested, daysRequestedSpec, hd',
      Bool.false_eq_true, if_false]
    have hcount : (getApplicableHolidays lr holidays).length
        = (holidays.filter (fun h =>
            holidayAppliesSpec lr h
              && decide (lr.start_date.ord ≤ h.date.ord)
              && decide (h.date.ord ≤ lr.end_date.ord))).length := by
      unfold getApplicableHolidays
      refine congrArg List.length (List.filter_congr ?_)
      intro x _
      simp only [holidayAppliesSpec_eq]
      cases x.tenant == lr.tenant <;>
        cases decide (lr.start_date.ord ≤ x.date.ord) <;>
          cases decide (x.date.ord ≤ lr.end_date.ord) <;>
            cases holidayCountryMatches (employeeCountry lr.employee) x <;> rfl
    rw [hcount]

/-- Witness for C3: a half-day request on a company-wide holiday agrees
with the reference definition and counts as 0 days. -/
theorem days_requested_matches_spec_witness :
    LeaveRequest.days_requested fixHalfDayRequest [fixHoliday]
        = daysRequestedSpec fixHalfDayRequest [fixHoliday]
      ∧ LeaveRequest.days_requested fixHalfDayRequest [fixHoliday] = 0 :=
  ⟨days_requested_matches_spec fixHalfDayRequest [fixHoliday] (fun _ => rfl),
    by decide⟩

theorem clearOtherDefaults_spec (ms : List Membership) (m z : Membership)
    (hz : z ∈ clearOtherDefaults ms m) :
    ∃ x ∈ ms, z.user = x.user ∧ z.pk = x.pk
      ∧ (z.is_default = true →
          x.is_default = true ∧ (x.user ≠ m.user ∨ x.pk = m.pk)) := by
  unfold clearOtherDefaults at hz
  rcases List.mem_map.mp hz with ⟨x, hx, hzx⟩
  by_cases hc : (x.user == m.user && x.is_default && x.pk != m.pk) = true
  · rw [if_pos hc] at hzx
    subst hzx
    refine ⟨x, hx, ?_, ?_, ?_⟩ <;> simp
  · rw [if_neg hc] at hzx
    subst hzx
    refine ⟨x, hx, rfl, rfl, fun hd => ⟨hd, ?_⟩⟩
    by_cases hu : x.user = m.user
    · by_cases hp : x.pk = m.pk
      · exact Or.inr hp
      · exact absurd (by simp [hu, hd, hp]) hc
    · exact Or.inl hu

theorem membershipSave_elem (ms : List Membership) (m z : Membership)
    (hz : z ∈ membershipSave ms m) :
    z = m
      ∨ ∃ x ∈ ms, z.user = x.user ∧ z.pk = x.pk
          ∧ (z.is_default = true →
              x.is_default = true
                ∧ (m.is_default = true → (x.user ≠ m.user ∨ x.pk = m.pk))) := by
  have hbase : z = m ∨ z ∈ (if m.is_default then clearOtherDefaults ms m else ms) := by
    simp only [membershipSave] at hz
    by_cases ha : ((if m.is_default then clearOtherDefaults ms m else ms).any
        (fun x => x.pk == m.pk)) = true
    · rw [if_pos ha] at hz
      rcases mem_replaceFirst _ _ _ _ hz with h | ⟨x, hx, _, hzx⟩
      · exact Or.inr h
      · exact Or.inl hzx
    · rw [if_neg ha] at hz
      rcases List.mem_append.mp hz with h | h
      · exact Or.inr h
      · exact Or.inl (by simpa using h)
  rcases hbase with h | h
  · exact Or.inl h
  · by_cases hm : m.is_default = true
    · rw [if_pos hm] at h
      rcases clearOtherDefaults_spec ms m z h with ⟨x, hx, hu, hp, hd⟩
      exact Or.inr ⟨x, hx, hu, hp, fun hzd => ⟨(hd hzd).1, fun _ => (hd hzd).2⟩⟩
    · rw [if_neg hm] at h
      exact Or.inr ⟨z, h, rfl, rfl, fun hzd => ⟨hzd, fun hmd => absurd hmd hm⟩⟩

/-- C8: `TenantMembership.save` first clears `is_default` on the user's
other memberships and then writes the row, so (a) after saving a default
membership the saved row is the user's only default, unconditionally,
and (b) the at-most-one-default-per-user invariant is preserved by every
save; (c) it also holds in the intermediate state between the clearing
UPDATE and the row write, so no point of the sequence exposes two
defaults. -/
theorem membership_default_unique (ms : List Membership) (m : Membership) :
    (m.is_default = true →
        ∀ x ∈ membershipSave ms m, ∀ y ∈ membershipSave ms m,
          x.user = m.user → y.user = m.user →
          x.is_default = true → y.is_default = true → x.pk = y.pk)
      ∧ (AtMostOneDefault ms → AtMostOneDefault (membershipSave ms m))
      ∧ (AtMostOneDefault ms → AtMostOneDefault (clearOtherDefaults ms m)) := by
  refine ⟨?_, ?_, ?_⟩
  · intro hm x hx y hy hxu hyu hxd hyd
    have key : ∀ z ∈ membershipSave ms m, z.user = m.user → z.is_default = true →
        z.pk = m.pk := by
      intro z hz hzu hzd
      rcases membershipSave_elem ms m z hz with hzm | ⟨x', hx', hu, hp, hd⟩
      · rw [hzm]
      · rcases (hd hzd).2 hm with h | h
        · exact absurd (hu ▸ hzu) h
        · exact hp.trans h
    exact (key x hx hxu hxd).trans (key y hy hyu hyd).symm
  · intro hinv x hx y hy hxy hxd hyd
    rcases membershipSave_elem ms m x hx with hxm | ⟨x', hx', hxu, hxp, hdx⟩
    · rcases membershipSave_elem ms m y hy with hym | ⟨y', hy', hyu, hyp, hdy⟩
      · rw [hxm, hym]
      · subst hxm
        rcases (hdy hyd).2 hxd with h | h
        · exact absurd (hyu ▸ hxy.symm) h
        · exact (hyp.trans h).symm
    · rcases membershipSave_elem ms m y hy with hym | ⟨y', hy', hyu, hyp, hdy⟩
      · subst hym
        rcases (hdx hxd).2 hyd with h | h
        · exact absurd (hxu ▸ hxy) h
        · exact hxp.trans h
      · have := hinv x' hx' y' hy' (by rw [← hxu, ← hyu, hxy])
          (hdx hxd).1 (hdy hyd).1
        rw [hxp, hyp, this]
  · intro hinv x hx y hy hxy hxd hyd
    rcases clearOtherDefaults_spec ms m x hx with ⟨x', hx', hxu, hxp, hdx⟩
    rcases clearOtherDefaults_spec ms m y hy with ⟨y', hy', hyu, hyp, hdy⟩
    have := hinv x' hx' y' hy' (by rw [← hxu, ← hyu, hxy])
      (hdx hxd).1 (hdy hyd).1
    rw [hxp, hyp, this]

/-- Witness for C8: saving a second default membership for user 1 flips
the existing default off, and the invariant holds for the result. -/
theorem membership_default_unique_witness :
    AtMostOneDefault (membershipSave [fixDefaultMembership] fixSecondDefault)
      ∧ membershipSave [fixDefaultMembership] fixSecondDefault
        = [{ fixDefaultMembership with is_default := false }, fixSecondDefault] :=
  ⟨(membership_default_unique [fixDefaultMembership] fixSecondDefault).2.1
      (by unfold AtMostOneDefault; decide),
    by decide⟩

theorem balanceMatches_adjustUsed (lr : LeaveRequest) (add : Bool) (d : ℚ)
    (b : LeaveBalance) (h : balanceMatches lr b = true) :
    balanceMatches lr (adjustUsed add d b) = true := by
  cases add <;> simpa [adjustUsed, balanceMatches] using h

theorem adjustUsed_cancel_adjustUsed (d : ℚ) (b : LeaveBalance) :
    adjustUsed false d (adjustUsed true d b) = b := by
  cases b
  simp [adjustUsed, add_sub_cancel_right]

theorem updateLeaveBalance_missing (holidays : List Holiday)
    (balances : List LeaveBalance) (lr : LeaveRequest) (add : Bool)
    (h : balances.all (fun x => !balanceMatches lr x) = true) :
    updateLeaveBalance holidays balances lr add
      = balances ++ [adjustUsed add (lr.days_requested holidays) (newBalanceFor lr)] := by
  have hany : balances.any (balanceMatches lr) = false := by
    rw [List.any_eq_false]
    intro x hx
    simpa using List.all_eq_true.mp h x hx
  unfold updateLeaveBalance
  rw [hany]
  simp

theorem updateLeaveBalance_found (holidays : List Holiday)
    (balances : List LeaveBalance) (lr : LeaveRequest) (add : Bool)
    (b : LeaveBalance) (h : balances.find? (balanceMatches lr) = some b) :
    (updateLeaveBalance holidays balances lr add).find? (balanceMatches lr)
      = some (adjustUsed add (lr.days_requested holidays) b) := by
  have hany : balances.any (balanceMatches lr) = true :=
    List.any_eq_true.mpr ⟨b, List.mem_of_find?_eq_some h, List.find?_some h⟩
  unfold updateLeaveBalance
  rw [hany]
  simp only [if_true]
  rw [find?_replaceFirst (balanceMatches lr) _
    (fun a ha => balanceMatches_adjustUsed lr add _ a ha), h]
  rfl

theorem updateLeaveBalance_roundtrip (holidays : List Holiday)
    (balances : List LeaveBalance) (lr : LeaveRequest)
    (h : balances.any (balanceMatches lr) = true) :
    updateLeaveBalance holidays (updateLeaveBalance holidays balances lr true)
      lr false = balances := by
  unfold updateLeaveBalance
  rw [h]
  simp only [if_true]
  have h2 : (replaceFirst (balanceMatches lr)
      (adjustUsed true (lr.days_requested holidays)) balances).any
        (balanceMatches lr) = true := by
    rw [any_replaceFirst (balanceMatches lr) _
      (fun a ha => balanceMatches_adjustUsed lr true _ a ha)]
    exact h
  rw [h2]
  simp only [if_true]
  rw [replaceFirst_replaceFirst (balanceMatches lr) _ _
    (fun a ha => balanceMatches_adjustUsed lr true _ a ha)]
  exact replaceFirst_id _ _ (fun a _ => adjustUsed_cancel_adjustUsed _ a) balances

/-- C9: `_update_leave_balance` get-or-creates the unique row keyed by
(tenant, employee, leave_type, start-year) — creating it with
`entitled_days = 0` when absent — and applies the signed
`days_requested` delta to `used_days` with no floor or ceiling, so a
negative `remaining_days` is a reachable, valid state rather than an
error (exhibited concretely in the last conjunct: entitled 2, approval
of 5 days, remaining −3). -/
theorem ledger_get_or_create_signed_delta :
    (∀ (holidays : List Holiday) (balances : List LeaveBalance)
        (lr : LeaveRequest) (add : Bool),
      balances.all (fun x => !balanceMatches lr x) = true →
      updateLeaveBalance holidays balances lr add
        = balances ++ [{ newBalanceFor lr with
            used_days := if add then 0 + lr.days_requested holidays
                         else 0 - lr.days_requested holidays }])
      ∧ (∀ (holidays : List Holiday) (balances : List LeaveBalance)
          (lr : LeaveRequest) (add : Bool) (b : LeaveBalance),
        balances.find? (balanceMatches lr) = some b →
        (updateLeaveBalance holidays balances lr add).find? (balanceMatches lr)
          = some { b with
              used_days := if add then b.used_days + lr.days_requested holidays
                           else b.used_days - lr.days_requested holidays })
      ∧ ((updateLeaveBalance [] [fixSmallBalance] fixPendingRequest true).find?
              (balanceMatches fixPendingRequest)
            = some { fixSmallBalance with used_days := 5 }
          ∧ LeaveBalance.remaining_days { fixSmallBalance with used_days := 5 } < 0) := by
  refine ⟨?_, ?_, ?_⟩
  · intro holidays balances lr add h
    rw [updateLeaveBalance_missing holidays balances lr add h]
    cases add <;> rfl
  · intro holidays balances lr add b h
    rw [updateLeaveBalance_found holidays balances lr add b h]
    cases add <;> rfl
  · have hd : LeaveRequest.days_requested fixPendingRequest [] = 5 := by
      simp [LeaveRequest.days_requested, getApplicableHolidays, fixPendingRequest]
    constructor
    · have h := updateLeaveBalance_found [] [fixSmallBalance] fixPendingRequest
        true fixSmallBalance rfl
      rw [h, hd]
      have hval : (fixSmallBalance.used_days + 5 : ℚ) = 5 := by
        norm_num [fixSmallBalance]
      simp [adjustUsed, hval]
    · simp only [LeaveBalance.remaining_days, fixSmallBalance]
      norm_num

/-- Witness for C9: the found-row conjunct applied at the fixture
balance with a 5-day request and an empty holiday table. -/
theorem ledger_get_or_create_signed_delta_witness :
    (updateLeaveBalance [] [fixBalance] fixPendingRequest true).find?
        (balanceMatches fixPendingRequest)
      = some { fixBalance with
          used_days := fixBalance.used_days
            + LeaveRequest.days_requested fixPendingRequest [] } :=
  ledger_get_or_create_signed_delta.2.1 [] [fixBalance] fixPendingRequest true
    fixBalance (by decide)

/-- C10: cancelling an approved request reverses the ledger using
`days_requested` re-evaluated at cancellation time against the holiday
rows present then (no approval-time amount is stored on the request),
and when the balance row for the request's key no longer exists,
cancellation creates a fresh row with `entitled_days = 0` and subtracts
the recomputed amount from its zero `used_days`. -/
theorem cancel_recomputes_days (db : Db) (ctx : Ctx) (pk : Nat)
    (lr : LeaveRequest) (emp : Employee)
    (hq : getLeaveRequest db.requests ctx.tenant pk = some lr)
    (hemp : getCurrentEmployee db.employees ctx = some emp)
    (hown : lr.employee.id = emp.id)
    (hst : lr.status = .approved) :
    (∀ b, db.balances.find? (balanceMatches lr) = some b →
        (cancel db ctx pk).2.balances.find? (balanceMatches lr)
          = some { b with
              used_days := b.used_days - lr.days_requested db.holidays })
      ∧ (db.balances.all (fun x => !balanceMatches lr x) = true →
          (cancel db ctx pk).2.balances
            = db.balances ++ [{ newBalanceFor lr with
                used_days := 0 - lr.days_requested db.holidays }]) := by
  have hcb : (cancel db ctx pk).2.balances
      = updateLeaveBalance db.holidays db.balances lr false := by
    simp [cancel, hq, hemp, hown, hst]
  constructor
  · intro b hb
    rw [hcb, updateLeaveBalance_found db.holidays db.balances lr false b hb]
    rfl
  · intro h
    rw [hcb, updateLeaveBalance_missing db.holidays db.balances lr false h]
    rfl

/-- Witness for C10: cancelling the approved fixture request when its
balance row is gone creates a fresh zero-entitlement row and drives
`used_days` to −5 — computed from the holiday table at cancel time. -/
theorem cancel_recomputes_days_witness :
    (cancel { fixDb with
        requests := [{ fixPendingRequest with status := .approved }]
        balances := [] } fixCtxOwner 5).2.balances
      = [] ++ [{ newBalanceFor { fixPendingRequest with status := .approved } with
          used_days := 0 - LeaveRequest.days_requested
            { fixPendingRequest with status := .approved } [] }] :=
  (cancel_recomputes_days
      { fixDb with
        requests := [{ fixPendingRequest with status := .approved }]
        balances := [] }
      fixCtxOwner 5 { fixPendingRequest with status := .approved }
      fixOwnerEmployee (by decide) (by decide) (by decide) (by decide)).2
    (by decide)

/-- C5: approve or reject on a request whose status is not pending, and
cancel (by the owning employee) on a request neither pending nor
approved, return the invalid-transition error (HTTP 400 with a detail
naming the blocked action) and leave the entire database unchanged. -/
theorem invalid_transition_rejected (db : Db) (ctx : Ctx) (pk : Nat)
    (notes : String) (lr : LeaveRequest) (actor : Employee)
    (hq : getLeaveRequest db.requests ctx.tenant pk = some lr)
    (hact : getCurrentEmployee db.employees ctx = some actor) :
    (lr.status ≠ .pending → hasApprovalPermission db.memberships ctx = true →
        approve db ctx pk notes
            = (.badRequest "Only pending requests can be approved", db)
          ∧ reject db ctx pk notes
            = (.badRequest "Only pending requests can be rejected", db))
      ∧ (lr.status ≠ .pending → lr.status ≠ .approved →
          lr.employee.id = actor.id →
          cancel db ctx pk = (.badRequest "This request cannot be cancelled", db)) := by
  constructor
  · intro hst hperm
    have hb : (lr.status != .pending) = true := bne_iff_ne.mpr hst
    constructor
    · simp [approve, hperm, hq, hact, hb]
    · simp [reject, hperm, hq, hact, hb]
  · intro h1 h2 hown
    have hb : (lr.status == .pending || lr.status == .approved) = false := by
      simp [beq_eq_false_iff_ne, h1, h2]
    simp [cancel, hq, hact, hown, hb]

/-- Witness for C5: approving, rejecting or cancelling the fixture
request after it was already cancelled yields the invalid-transition
error and no state change. -/
theorem invalid_transition_rejected_witness :
    (approve { fixDb with
          requests := [{ fixPendingRequest with status := .cancelled }] }
        fixCtxManager 5 ""
      = (.badRequest "Only pending requests can be approved",
          { fixDb with
            requests := [{ fixPendingRequest with status := .cancelled }] }))
      ∧ (cancel { fixDb with
            requests := [{ fixPendingRequest with status := .cancelled }] }
          fixCtxOwner 5
        = (.badRequest "This request cannot be cancelled",
            { fixDb with
              requests := [{ fixPendingRequest with status := .cancelled }] })) :=
  ⟨((invalid_transition_rejected
        { fixDb with
          requests := [{ fixPendingRequest with status := .cancelled }] }
        fixCtxManager 5 "" { fixPendingRequest with status := .cancelled }
        fixManagerEmployee (by decide) (by decide)).1
      (by decide) (by decide)).1,
    (invalid_transition_rejected
        { fixDb with
          requests := [{ fixPendingRequest with status := .cancelled }] }
        fixCtxOwner 5 "" { fixPendingRequest with status := .cancelled }
        fixOwnerEmployee (by decide) (by decide)).2
      (by decide) (by decide) (by decide)⟩

/-- C6: `pending_approval`, approve and reject are refused outright
(Forbidden, database untouched) unless the caller's membership role in
the current tenant is owner, admin or manager — the first conjunct
characterises `_has_approval_permission` as exactly that role test — and
cancel is refused with Forbidden (database untouched) for any caller
whose employee profile is not the request's employee, regardless of
role. -/
theorem approval_role_gate (db : Db) (ctx : Ctx) (pk : Nat) (notes : String) :
    (hasApprovalPermission db.memberships ctx = true
        ↔ ∃ mem, db.memberships.find?
              (fun m => m.user == ctx.userId && some m.tenant == ctx.tenant)
                = some mem
            ∧ (mem.role = "owner" ∨ mem.role = "admin" ∨ mem.role = "manager"))
      ∧ (hasApprovalPermission db.memberships ctx = false →
          pendingApproval db ctx
              = .forbidden "Only managers can view pending approvals"
            ∧ approve db ctx pk notes
              = (.forbidden "Only managers can approve leave requests", db)
            ∧ reject db ctx pk notes
              = (.forbidden "Only managers can reject leave requests", db))
      ∧ (∀ (lr : LeaveRequest) (emp : Employee),
          getLeaveRequest db.requests ctx.tenant pk = some lr →
          getCurrentEmployee db.employees ctx = some emp →
          emp.id ≠ lr.employee.id →
          cancel db ctx pk
            = (.forbidden "You can only cancel your own requests", db)) := by
  refine ⟨?_, ?_, ?_⟩
  · unfold hasApprovalPermission
    cases hf : db.memberships.find?
        (fun m => m.user == ctx.userId && some m.tenant == ctx.tenant) with
    | none => simp [hf]
    | some m => simp [hf, or_assoc]
  · intro h
    refine ⟨?_, ?_, ?_⟩
    · simp [pendingApproval, h]
    · simp [approve, h]
    · simp [reject, h]
  · intro lr emp hq hemp hne
    have hb : (lr.employee.id != emp.id) = true :=
      bne_iff_ne.mpr (fun hh => hne hh.symm)
    simp [cancel, hq, hemp, hb]

/-- Witness for C6: under the viewer's context (no membership at all in
the fixture), the three approval-gated actions are refused, and the
owner's pending request cannot be cancelled by the manager (a different
employee). -/
theorem approval_role_gate_witness :
    (pendingApproval fixDb fixCtxViewer
        = .forbidden "Only managers can view pending approvals"
      ∧ approve fixDb fixCtxViewer 5 ""
        = (.forbidden "Only managers can approve leave requests", fixDb)
      ∧ reject fixDb fixCtxViewer 5 ""
        = (.forbidden "Only managers can reject leave requests", fixDb))
      ∧ cancel fixDb fixCtxManager 5
        = (.forbidden "You can only cancel your own requests", fixDb) :=
  ⟨(approval_role_gate fixDb fixCtxViewer 5 "").2.1 (by decide),
    (approval_role_gate fixDb fixCtxManager 5 "").2.2 fixPendingRequest
      fixManagerEmployee (by decide) (by decide) (by decide)⟩

theorem getLeaveRequest_saveLeaveRequest (tOpt : Option Nat) (pk : Nat)
    (lr lr' : LeaveRequest) (hid : lr'.id = lr.id)
    (hten : lr'.tenant = lr.tenant) :
    ∀ requests : List LeaveRequest,
      getLeaveRequest requests tOpt pk = some lr →
      (∀ r ∈ requests, r.id = lr.id → r = lr) →
      getLeaveRequest (saveLeaveRequest requests lr') tOpt pk = some lr' := by
  cases tOpt with
  | none =>
    intro requests h _
    simp [getLeaveRequest, leaveRequestQueryset] at h
  | some t =>
    intro requests h huniq
    simp only [getLeaveRequest, leaveRequestQueryset, saveLeaveRequest] at h ⊢
    have hpk : lr.id = pk := by simpa using List.find?_some h
    have htent : lr.tenant = t := by
      simpa using (List.mem_filter.mp (List.mem_of_find?_eq_some h)).2
    induction requests with
    | nil => simp at h
    | cons r rs ih =>
      by_cases hr : r.id = lr.id
      · have hrlr : r = lr := huniq r (by simp) hr
        subst hrlr
        have hc : (r.id == lr'.id) = true := beq_iff_eq.mpr (hid ▸ rfl)
        have hqt : (lr'.tenant == t) = true := beq_iff_eq.mpr (hten.trans htent)
        have hqp : (lr'.id == pk) = true := beq_iff_eq.mpr (hid.trans hpk)
        simp only [replaceFirst, hc, if_true]
        rw [List.filter_cons_of_pos (p := fun x : LeaveRequest => x.tenant == t) hqt,
          List.find?_cons_of_pos (p := fun x : LeaveRequest => x.id == pk) _ hqp]
      · have hc : (r.id == lr'.id) = false :=
          beq_eq_false_iff_ne.mpr (fun hh => hr (hh.trans hid))
        have hrpk : ¬((r.id == pk) = true) := by
          simp only [beq_iff_eq]
          exact fun hh => hr (hh.trans hpk.symm)
        simp only [replaceFirst, hc, Bool.false_eq_true, if_false]
        have huniq' : ∀ x ∈ rs, x.id = lr.id → x = lr :=
          fun x hx hxe => huniq x (List.mem_cons_of_mem r hx) hxe
        by_cases hrt : (r.tenant == t) = true
        · rw [List.filter_cons_of_pos (p := fun x : LeaveRequest => x.tenant == t) hrt]
            at h ⊢
          rw [List.find?_cons_of_neg (p := fun x : LeaveRequest => x.id == pk) _ hrpk]
            at h ⊢
          exact ih h huniq'
        · rw [List.filter_cons_of_neg (p := fun x : LeaveRequest => x.tenant == t) hrt]
            at h ⊢
          exact ih h huniq'

/-- C4: approving a pending request adds exactly `days_requested` to the
`used_days` of the balance keyed by (tenant, employee, leave_type,
start-year), and cancelling that same approved request immediately after
subtracts the same amount, restoring the balance table — including the
pre-approval `used_days` — exactly. -/
theorem approve_cancel_roundtrip (db : Db) (ctxM ctxE : Ctx) (pk : Nat)
    (notes : String) (lr : LeaveRequest) (reviewer emp : Employee)
    (b : LeaveBalance)
    (hq : getLeaveRequest db.requests ctxM.tenant pk = some lr)
    (huniq : ∀ r ∈ db.requests, r.id = lr.id → r = lr)
    (hst : lr.status = .pending)
    (hperm : hasApprovalPermission db.memberships ctxM = true)
    (hrev : getCurrentEmployee db.employees ctxM = some reviewer)
    (hb : db.balances.find? (balanceMatches lr) = some b)
    (htenE : ctxE.tenant = ctxM.tenant)
    (hemp : getCurrentEmployee db.employees ctxE = some emp)
    (hown : emp.id = lr.employee.id) :
    (approve db ctxM pk notes).2.balances.find? (balanceMatches lr)
        = some { b with
            used_days := b.used_days + lr.days_requested db.holidays }
      ∧ (cancel (approve db ctxM pk notes).2 ctxE pk).2.balances
        = db.balances := by
  have hbne : (lr.status != LeaveStatus.pending) = false := by
    simp [hst]
  have happ : approve db ctxM pk notes
      = (.ok { lr with
            status := .approved
            reviewed_by := some reviewer.id
            reviewed_at := some ctxM.now
            review_notes := notes },
          { db with
            requests := saveLeaveRequest db.requests
              { lr with
                status := .approved
                reviewed_by := some reviewer.id
                reviewed_at := some ctxM.now
                review_notes := notes }
            balances := updateLeaveBalance db.holidays db.balances
              { lr with
                status := .approved
                reviewed_by := some reviewer.id
                reviewed_at := some ctxM.now
                review_notes := notes } true }) := by
    simp [approve, hperm, hq, hrev, hbne]
  have hany : db.balances.any (balanceMatches lr) = true :=
    List.any_eq_true.mpr ⟨b, List.mem_of_find?_eq_some hb, List.find?_some hb⟩
  constructor
  · rw [happ]
    exact updateLeaveBalance_found db.holidays db.balances _ true b hb
  · rw [happ]
    have hq' : getLeaveRequest
        (saveLeaveRequest db.requests
          { lr with
            status := .approved
            reviewed_by := some reviewer.id
            reviewed_at := some ctxM.now
            review_notes := notes }) ctxE.tenant pk
        = some { lr with
            status := .approved
            reviewed_by := some reviewer.id
            reviewed_at := some ctxM.now
            review_notes := notes } := by
      exact getLeaveRequest_saveLeaveRequest ctxE.tenant pk lr
        { lr with
          status := .approved
          reviewed_by := some reviewer.id
          reviewed_at := some ctxM.now
          review_notes := notes }
        rfl rfl db.requests (by rw [htenE]; exact hq) huniq
    have hidne : ((({ lr with
        status := .approved
        reviewed_by := some reviewer.id
        reviewed_at := some ctxM.now
        review_notes := notes } : LeaveRequest)).employee.id != emp.id) = false := by
      simp [hown.symm]
    simp only [cancel, hq', hemp, hidne, Bool.false_eq_true, if_false]
    simp only [show (LeaveStatus.approved == LeaveStatus.pending
        || LeaveStatus.approved == LeaveStatus.approved) = true from rfl,
      Bool.not_true, Bool.false_eq_true, if_false,
      show (LeaveStatus.approved == LeaveStatus.approved) = true from rfl,
      if_true]
    exact updateLeaveBalance_roundtrip db.holidays db.balances _ hany

/-- Witness for C4: approving the fixture five-day request raises
`used_days` of the 2024 balance from 0 to 5, and the owner's subsequent
cancel restores the balance table exactly. -/
theorem approve_cancel_roundtrip_witness :
    (approve fixDb fixCtxManager 5 "ok").2.balances.find?
        (balanceMatches fixPendingRequest)
      = some { fixBalance with
          used_days := fixBalance.used_days
            + LeaveRequest.days_requested fixPendingRequest fixDb.holidays }
      ∧ (cancel (approve fixDb fixCtxManager 5 "ok").2 fixCtxOwner 5).2.balances
        = fixDb.balances :=
  approve_cancel_roundtrip fixDb fixCtxManager fixCtxOwner 5 "ok"
    fixPendingRequest fixManagerEmployee fixOwnerEmployee fixBalance
    (by decide) (by decide) (by decide) (by decide) (by decide) (by rfl)
    (by decide) (by decide) (by decide)

/-- C7 (demonstration of the code bug): `approve` performs
`leave_request.save()` and `balance.save()` as two separate autocommitted
writes — `leave/views.py` uses no `transaction.atomic` (unlike
`services.py`, which does) and no settings module sets
`ATOMIC_REQUESTS` — so after the first committed write the fixture
request is already `approved` while `used_days` is still 0; only the
second, independent write moves it to 5. The two successive committed
states differ, so a failure between the writes durably leaves a request
approved with its balance unadjusted, contradicting the claimed
single-transaction atomicity. -/
theorem approve_commits_partial_state :
    (approveIntermediateDb fixDb fixCtxManager 5 "").map
        (fun d => (d.requests.map LeaveRequest.status, d.balances))
      = some ([LeaveStatus.approved], fixDb.balances)
      ∧ (approve fixDb fixCtxManager 5 "").2.balances.find?
          (balanceMatches fixApprovedSaved)
        = some { fixBalance with used_days := 5 }
      ∧ (approveIntermediateDb fixDb fixCtxManager 5 "").map Db.balances
          ≠ some (approve fixDb fixCtxManager 5 "").2.balances := by
  have hd5 : LeaveRequest.days_requested fixApprovedSaved fixDb.holidays = 5 := by
    simp [LeaveRequest.days_requested, getApplicableHolidays, fixApprovedSaved,
      fixPendingRequest, fixDb]
  have happ : (approve fixDb fixCtxManager 5 "").2.balances
      = updateLeaveBalance fixDb.holidays fixDb.balances fixApprovedSaved true := by
    have h1 : hasApprovalPermission fixDb.memberships fixCtxManager = true := by
      decide
    have h2 : getLeaveRequest fixDb.requests fixCtxManager.tenant 5
        = some fixPendingRequest := by decide
    have h3 : getCurrentEmployee fixDb.employees fixCtxManager
        = some fixManagerEmployee := by decide
    have h4 : (fixPendingRequest.status != LeaveStatus.pending) = false := by
      decide
    simp only [approve, h1, h2, h3, h4, Bool.not_false, Bool.false_eq_true,
      if_false]
    rfl
  have hfind : (approve fixDb fixCtxManager 5 "").2.balances.find?
      (balanceMatches fixApprovedSaved)
      = some { fixBalance with used_days := 5 } := by
    rw [happ, updateLeaveBalance_found fixDb.holidays fixDb.balances
      fixApprovedSaved true fixBalance (by decide), hd5]
    have hval : (fixBalance.used_days + 5 : ℚ) = 5 := by
      norm_num [fixBalance]
    simp [adjustUsed, hval]
  refine ⟨by decide, hfind, ?_⟩
  intro hcontra
  have hmid : (approveIntermediateDb fixDb fixCtxManager 5 "").map Db.balances
      = some fixDb.balances := by decide
  rw [hmid] at hcontra
  have h5 : fixDb.balances.find? (balanceMatches fixApprovedSaved)
      = some { fixBalance with used_days := 5 } := by
    rw [Option.some.inj hcontra]
    exact hfind
  have h0 : fixDb.balances.find? (balanceMatches fixApprovedSaved)
      = some fixBalance := by decide
  rw [h0] at h5
  have husd := congrArg LeaveBalance.used_days (Option.some.inj h5)
  simp only [fixBalance] at husd
  norm_num at husd

end Rhr
